import Mathlib

/-!
Shallow embedding of the live-map reconciliation logic of
`src/frontend/src/components/widgets/MapWidget.tsx` (and the API client
`src/frontend/src/services/api.ts`), together with theorems settling the
claims about it.

Coordinates are only ever copied between records in the source (never used
arithmetically), so latitude/longitude values are embedded as `Int`.
-/

namespace MapWidget

/-- A live vehicle position as returned by `getLivePositions`
(`src/frontend/src/services/types.ts`, `LivePosition`). -/
structure LivePosition where
  vehicle_id : String
  lat : Int
  lon : Int
  last_update : Option String
  deriving Repr, DecidableEq

/-- The `[lon, lat]` pair a marker is placed at (`const lngLat = [p.lon, p.lat]`,
MapWidget.tsx line 140). -/
structure LngLat where
  lon : Int
  lat : Int
  deriving Repr, DecidableEq

/-- The marker table `markersRef.current : Record<string, Marker>` together with
the current position of each marker: an association list keyed by vehicle id. -/
abbrev Markers := List (String × LngLat)

/-- Keys present in a marker (or layer) table. -/
def keysOf (M : List (String × α)) : List String := M.map Prod.fst

/-- Lookup of the entry stored under key `v`. -/
def lookupKey (v : String) (M : List (String × α)) : Option α :=
  (M.find? (fun q => q.1 == v)).map Prod.snd

/-- How many entries a table holds under key `v`. -/
def countKey (v : String) (M : List (String × α)) : Nat :=
  (keysOf M).count v

/-- One iteration of the `positions.forEach` body (MapWidget.tsx lines 138-158):
if `markersRef.current[id]` exists the stored marker is moved with
`setLngLat`, otherwise a fresh marker is created, added to the map and stored
under the id. -/
def upsertMarker (v : String) (c : LngLat) (M : Markers) : Markers :=
  if M.any (fun q => q.1 == v) then
    M.map (fun q => if q.1 == v then (q.1, c) else q)
  else
    M ++ [(v, c)]

/-- The whole `positions.forEach` loop of `poll` applied to the marker table. -/
def applyPositions (ps : List LivePosition) (M : Markers) : Markers :=
  ps.foldl (fun N p => upsertMarker p.vehicle_id ⟨p.lon, p.lat⟩ N) M

/-- The body of `poll` (MapWidget.tsx lines 133-162) before the surrounding
`try/catch`: the fetch either rejects (`Except.error`) or resolves with a batch
of positions; after the `await` the continuation first checks
`if (!mounted || !mapRef.current) return;` and only then touches the markers.
`mounted` stands for the conjunction `mounted && mapRef.current !== null`
observed at resume time. -/
def pollBody (mounted : Bool) (fetch : Except String (List LivePosition))
    (M : Markers) : Except String Markers :=
  match fetch with
  | .error e => .error e
  | .ok ps => .ok (if mounted then applyPositions ps M else M)

/-- `poll` itself: the `try/catch` wrapper. A rejected fetch is caught and
logged (`console.warn`, line 160) and the marker table is left as it was; no
exception escapes `poll`, which is reflected in the total return type. -/
def poll (mounted : Bool) (fetch : Except String (List LivePosition))
    (M : Markers) : Markers :=
  match pollBody mounted fetch M with
  | .ok N => N
  | .error _ => M

/-- The poll-effect cleanup (MapWidget.tsx lines 171-177): every stored marker
is removed from the map and `markersRef.current` is reset to `\x7b\x7d`. -/
def teardownMarkers (_ : Markers) : Markers := []

end MapWidget

namespace MapWidget

/-! ### Basic lemmas about the marker table -/

theorem any_eq_mem_keys (v : String) (M : List (String × α)) :
    (M.any (fun q => q.1 == v)) = true ↔ v ∈ keysOf M := by
  rw [List.any_eq_true]
  constructor
  · rintro ⟨q, hq, hqv⟩
    rw [beq_iff_eq] at hqv
    exact hqv ▸ List.mem_map_of_mem Prod.fst hq
  · intro hv
    rw [keysOf, List.mem_map] at hv
    obtain ⟨q, hq, hqv⟩ := hv
    refine ⟨q, hq, ?_⟩
    rw [beq_iff_eq]
    exact hqv

theorem keysOf_upsert_of_mem (v : String) (c : LngLat) (M : Markers)
    (h : v ∈ keysOf M) : keysOf (upsertMarker v c M) = keysOf M := by
  unfold upsertMarker
  rw [if_pos ((any_eq_mem_keys v M).2 h)]
  simp only [keysOf, List.map_map]
  apply List.map_congr_left
  intro q _
  by_cases hq : q.1 = v
  · simp [hq]
  · simp [hq]

theorem keysOf_upsert_of_not_mem (v : String) (c : LngLat) (M : Markers)
    (h : v ∉ keysOf M) : keysOf (upsertMarker v c M) = keysOf M ++ [v] := by
  unfold upsertMarker
  rw [if_neg]
  · simp [keysOf]
  · intro hany
    exact h ((any_eq_mem_keys v M).1 hany)

theorem find?_overwrite_self (v : String) (c : LngLat) (M : Markers) :
    List.find? (fun q => q.1 == v) (M.map (fun q => if q.1 == v then (q.1, c) else q))
      = (List.find? (fun q => q.1 == v) M).map (fun q => (q.1, c)) := by
  induction M with
  | nil => simp
  | cons a as ih =>
    by_cases ha : a.1 = v
    · simp [List.find?_cons_of_pos, ha]
    · rw [List.map_cons, if_neg (by simpa using ha),
          List.find?_cons_of_neg _ (by simpa using ha),
          List.find?_cons_of_neg _ (by simpa using ha)]
      exact ih

theorem find?_overwrite_other (v w : String) (c : LngLat) (M : Markers)
    (hvw : v ≠ w) :
    List.find? (fun q => q.1 == v) (M.map (fun q => if q.1 == w then (q.1, c) else q))
      = List.find? (fun q => q.1 == v) M := by
  induction M with
  | nil => simp
  | cons a as ih =>
    by_cases ha : a.1 = v
    · have haw : ¬ (a.1 = w) := fun hw => hvw (ha ▸ hw ▸ rfl)
      rw [List.map_cons, if_neg (by simpa using haw),
          List.find?_cons_of_pos _ (by simpa using ha),
          List.find?_cons_of_pos _ (by simpa using ha)]
    · rw [List.map_cons]
      by_cases haw : a.1 = w
      · rw [if_pos (by simpa using haw),
            List.find?_cons_of_neg _ (by simpa using ha),
            List.find?_cons_of_neg _ (by simpa using ha)]
        exact ih
      · rw [if_neg (by simpa using haw),
            List.find?_cons_of_neg _ (by simpa using ha),
            List.find?_cons_of_neg _ (by simpa using ha)]
        exact ih

theorem lookupKey_upsert_self (v : String) (c : LngLat) (M : Markers) :
    lookupKey v (upsertMarker v c M) = some c := by
  unfold upsertMarker lookupKey
  by_cases h : M.any (fun q => q.1 == v) = true
  · rw [if_pos h, find?_overwrite_self]
    cases hfind : M.find? (fun q => q.1 == v) with
    | some q => simp
    | none =>
      rw [List.find?_eq_none] at hfind
      rw [List.any_eq_true] at h
      obtain ⟨q, hq, hqv⟩ := h
      exact absurd hqv (hfind q hq)
  · rw [if_neg h, List.find?_append]
    have : M.find? (fun q => q.1 == v) = none := by
      rw [List.find?_eq_none]
      intro x hx hxv
      apply h
      rw [List.any_eq_true]
      exact ⟨x, hx, hxv⟩
    rw [this]
    simp

theorem lookupKey_upsert_other (v w : String) (c : LngLat) (M : Markers)
    (hvw : v ≠ w) : lookupKey v (upsertMarker w c M) = lookupKey v M := by
  unfold upsertMarker lookupKey
  by_cases h : M.any (fun q => q.1 == w) = true
  · rw [if_pos h, find?_overwrite_other v w c M hvw]
  · rw [if_neg h, List.find?_append]
    have : List.find? (fun q => q.1 == v) [(w, c)] = none := by
      rw [List.find?_eq_none]
      intro x hx
      rw [List.mem_singleton] at hx
      subst hx
      simp only [beq_iff_eq]
      exact fun hv => hvw hv.symm
    rw [this]
    simp

theorem length_eq_keysOf_length (M : List (String × α)) :
    M.length = (keysOf M).length := by
  simp [keysOf]

theorem mem_keys_upsert (u w : String) (c : LngLat) (M : Markers)
    (h : u ∈ keysOf M) : u ∈ keysOf (upsertMarker w c M) := by
  by_cases hw : w ∈ keysOf M
  · rw [keysOf_upsert_of_mem w c M hw]; exact h
  · rw [keysOf_upsert_of_not_mem w c M hw]
    exact List.mem_append_left _ h

theorem self_mem_keys_upsert (w : String) (c : LngLat) (M : Markers) :
    w ∈ keysOf (upsertMarker w c M) := by
  by_cases hw : w ∈ keysOf M
  · rw [keysOf_upsert_of_mem w c M hw]; exact hw
  · rw [keysOf_upsert_of_not_mem w c M hw]
    exact List.mem_append_right _ (List.mem_singleton.2 rfl)

theorem length_upsert_of_mem (w : String) (c : LngLat) (M : Markers)
    (h : w ∈ keysOf M) : (upsertMarker w c M).length = M.length := by
  rw [length_eq_keysOf_length, length_eq_keysOf_length M,
      keysOf_upsert_of_mem w c M h]

theorem countKey_upsert_of_mem (v w : String) (c : LngLat) (M : Markers)
    (h : w ∈ keysOf M) : countKey v (upsertMarker w c M) = countKey v M := by
  unfold countKey
  rw [keysOf_upsert_of_mem w c M h]

theorem countKey_upsert_of_not_mem (v w : String) (c : LngLat) (M : Markers)
    (h : w ∉ keysOf M) :
    countKey v (upsertMarker w c M) = countKey v M + (if v = w then 1 else 0) := by
  unfold countKey
  rw [keysOf_upsert_of_not_mem w c M h, List.count_append]
  congr 1
  by_cases hvw : v = w
  · subst hvw
    simp
  · simp [List.count_cons, hvw]

/-! ### Lemmas about the whole `positions.forEach` loop -/

theorem applyPositions_nil (M : Markers) : applyPositions [] M = M := rfl

theorem applyPositions_cons (p : LivePosition) (ps : List LivePosition) (M : Markers) :
    applyPositions (p :: ps) M
      = applyPositions ps (upsertMarker p.vehicle_id ⟨p.lon, p.lat⟩ M) := rfl

theorem mem_keys_applyPositions (u : String) (ps : List LivePosition) (M : Markers)
    (h : u ∈ keysOf M) : u ∈ keysOf (applyPositions ps M) := by
  induction ps generalizing M with
  | nil => exact h
  | cons p ps ih =>
    rw [applyPositions_cons]
    exact ih _ (mem_keys_upsert u p.vehicle_id _ M h)

theorem pos_mem_keys_applyPositions (p : LivePosition) (ps : List LivePosition)
    (M : Markers) (h : p ∈ ps) : p.vehicle_id ∈ keysOf (applyPositions ps M) := by
  induction ps generalizing M with
  | nil => cases h
  | cons q qs ih =>
    rw [applyPositions_cons]
    rcases List.mem_cons.1 h with rfl | hmem
    · exact mem_keys_applyPositions _ qs _ (self_mem_keys_upsert _ _ M)
    · exact ih _ hmem

theorem length_applyPositions_of_mem (ps : List LivePosition) (M : Markers)
    (h : ∀ p ∈ ps, p.vehicle_id ∈ keysOf M) :
    (applyPositions ps M).length = M.length := by
  induction ps generalizing M with
  | nil => rfl
  | cons p ps ih =>
    have hp : p.vehicle_id ∈ keysOf M := h p (List.mem_cons_self p ps)
    rw [applyPositions_cons, ih _ ?_, length_upsert_of_mem _ _ M hp]
    intro q hq
    rw [keysOf_upsert_of_mem _ _ M hp]
    exact h q (List.mem_cons_of_mem p hq)

/-- The latest position in a batch carrying the given vehicle id, i.e. the one
whose `forEach` iteration runs last. -/
def lastPos (v : String) : List LivePosition → Option LivePosition
  | [] => none
  | p :: ps =>
    match lastPos v ps with
    | some q => some q
    | none => if p.vehicle_id == v then some p else none

theorem lookupKey_applyPositions (v : String) (ps : List LivePosition) (M : Markers) :
    lookupKey v (applyPositions ps M)
      = match lastPos v ps with
        | some p => some ⟨p.lon, p.lat⟩
        | none => lookupKey v M := by
  induction ps generalizing M with
  | nil => rfl
  | cons p ps ih =>
    rw [applyPositions_cons, ih]
    cases hl : lastPos v ps with
    | some q => simp [lastPos, hl]
    | none =>
      simp only [lastPos, hl]
      by_cases hpv : p.vehicle_id = v
      · rw [if_pos (by simpa using hpv), ← hpv, lookupKey_upsert_self]
      · rw [if_neg (by simpa using hpv),
            lookupKey_upsert_other v p.vehicle_id _ M (fun hv => hpv hv.symm)]

theorem countKey_applyPositions_of_mem (v : String) (ps : List LivePosition)
    (M : Markers) (h : v ∈ keysOf M) :
    countKey v (applyPositions ps M) = countKey v M := by
  induction ps generalizing M with
  | nil => rfl
  | cons p ps ih =>
    rw [applyPositions_cons]
    by_cases hw : p.vehicle_id ∈ keysOf M
    · rw [ih _ (mem_keys_upsert v _ _ M h), countKey_upsert_of_mem v _ _ M hw]
    · have hvw : v ≠ p.vehicle_id := fun hv => hw (hv ▸ h)
      rw [ih _ (mem_keys_upsert v _ _ M h),
          countKey_upsert_of_not_mem v _ _ M hw, if_neg hvw]
      omega

theorem countKey_applyPositions_first (v : String) (ps : List LivePosition)
    (M : Markers) (hM : v ∉ keysOf M) (hps : ∃ p ∈ ps, p.vehicle_id = v) :
    countKey v (applyPositions ps M) = 1 := by
  induction ps generalizing M with
  | nil =>
    obtain ⟨p, hp, _⟩ := hps
    cases hp
  | cons p ps ih =>
    rw [applyPositions_cons]
    by_cases hpv : p.vehicle_id = v
    · have hzero : countKey v M = 0 := List.count_eq_zero.2 hM
      have hmem : v ∈ keysOf (upsertMarker p.vehicle_id ⟨p.lon, p.lat⟩ M) :=
        hpv ▸ self_mem_keys_upsert p.vehicle_id _ M
      rw [countKey_applyPositions_of_mem v ps _ hmem,
          countKey_upsert_of_not_mem v _ _ M (hpv ▸ hM), if_pos hpv.symm]
      rw [countKey] at hzero ⊢
      omega
    · have hnot : v ∉ keysOf (upsertMarker p.vehicle_id ⟨p.lon, p.lat⟩ M) := by
        by_cases hw : p.vehicle_id ∈ keysOf M
        · rw [keysOf_upsert_of_mem _ _ M hw]; exact hM
        · rw [keysOf_upsert_of_not_mem _ _ M hw]
          intro hmem
          rcases List.mem_append.1 hmem with hmem | hmem
          · exact hM hmem
          · exact hpv (List.mem_singleton.1 hmem).symm
      obtain ⟨q, hq, hqv⟩ := hps
      rcases List.mem_cons.1 hq with rfl | hq
      · exact absurd hqv hpv
      · exact ih _ hnot ⟨q, hq, hqv⟩

/-! ### Route geometry loading (MapWidget.tsx lines 54-126) -/

/-- A geometry as delivered by `getRouteGeometry`: the coordinate list of the
returned LineString, as (lon, lat) pairs. -/
abbrev Geometry := List (Int × Int)

/-- The polyline state of the map: one association-list entry per layer id,
standing for the paired `addSource`/`addLayer` entries keyed by `layerId`. -/
abbrev Layers := List (String × Geometry)

/-- A stop as the widget reads it after the cast
`(r.stops || []) as Array<(lat, lon)>` (line 70). -/
structure StopPoint where
  lat : Int
  lon : Int
  deriving Repr, DecidableEq

/-- An active route as consumed by `loadRoutes`. Per
`src/frontend/src/services/types.ts` the runtime `RouteSummary` carries no `id`
field at all, so the `r.id` the widget reads is modelled as an `Option String`
(`none` for the absent field, `some` for a present one). -/
structure RouteSummary where
  id : Option String
  stops : List StopPoint
  deriving Repr, DecidableEq

/-- The template literal computing the layer id (line 67):
`route-line-$(r.id || idx)`. JavaScript falls back to the positional index
`idx` when `r.id` is `undefined` or the empty string (both falsy). -/
def layerIdOf (rid : Option String) (idx : Nat) : String :=
  match rid with
  | some s => if s != "" then "route-line-" ++ s else "route-line-" ++ toString idx
  | none => "route-line-" ++ toString idx

/-- The coordinate list built for a route (line 71):
`stops.map((s) => [s.lon, s.lat])`. -/
def routeCoords (r : RouteSummary) : List (Int × Int) :=
  r.stops.map (fun s => (s.lon, s.lat))

/-- Lines 90-113: remove the existing layer and source under `layerId` when
present, then `addSource`/`addLayer` the fresh geometry under `layerId`. -/
def upsertLayer (lid : String) (g : Geometry) (L : Layers) : Layers :=
  (L.filter (fun q => q.1 != lid)) ++ [(lid, g)]

/-- The continuation resumed when one geometry request resolves (lines 77-113):
`if (cancelled) return;` then replace the layer. `cancelled` is the value of
the effect-scope cancellation flag observed at resume time. -/
def geomContinuation (cancelled : Bool) (lid : String) (g : Geometry)
    (L : Layers) : Layers :=
  if cancelled then L else upsertLayer lid g L

/-- Processing of one enumerated route inside `loadRoutes` (lines 66-114):
skip entirely when fewer than 2 coordinates; otherwise the geometry request
either rejects (its continuation never runs past the `await`) or resolves and
runs `geomContinuation`. `geomOf idx` is the outcome of the geometry request
issued for the route at position `idx`. -/
def loadRoutesStep (cancelled : Bool) (geomOf : Nat → Except String Geometry)
    (L : Layers) (ir : Nat × RouteSummary) : Layers :=
  if (routeCoords ir.2).length < 2 then L
  else
    match geomOf ir.1 with
    | .error _ => L
    | .ok g => geomContinuation cancelled (layerIdOf ir.2.id ir.1) g L

/-- `loadRoutes` (lines 60-121): fetch the active routes; a rejected fetch is
caught by the surrounding `try/catch` (lines 116-118) leaving the layers
untouched; otherwise every enumerated route is processed. -/
def loadRoutes (fetch : Except String (List RouteSummary))
    (geomOf : Nat → Except String Geometry) (cancelled : Bool)
    (L : Layers) : Layers :=
  match fetch with
  | .error _ => L
  | .ok routes => routes.enum.foldl (loadRoutesStep cancelled geomOf) L

/-- The geometry requests a `loadRoutes` run issues: one per enumerated route
whose coordinate list has at least 2 entries, carrying that coordinate list
(line 76: `LogisticsAPI.getRouteGeometry(coords)`). -/
def geometryRequests (routes : List RouteSummary) : List (Nat × List (Int × Int)) :=
  routes.enum.filterMap
    (fun ir => if (routeCoords ir.2).length < 2 then none else some (ir.1, routeCoords ir.2))

/-! ### Lemmas about layer upserts -/

theorem find?_filter_self (lid : String) (L : Layers) :
    List.find? (fun q => q.1 == lid) (L.filter (fun q => q.1 != lid)) = none := by
  rw [List.find?_eq_none]
  intro x hx
  have := List.of_mem_filter hx
  simpa using this

theorem find?_filter_ne (v lid : String) (L : Layers) (hvl : v ≠ lid) :
    List.find? (fun q => q.1 == v) (L.filter (fun q => q.1 != lid))
      = List.find? (fun q => q.1 == v) L := by
  induction L with
  | nil => simp
  | cons a as ih =>
    by_cases hal : a.1 = lid
    · have hav : ¬ (a.1 = v) := fun hv => hvl (hv ▸ hal)
      rw [List.filter_cons_of_neg (by simpa using hal),
          List.find?_cons_of_neg _ (by simpa using hav)]
      exact ih
    · rw [List.filter_cons_of_pos (by simpa using hal)]
      by_cases hav : a.1 = v
      · rw [List.find?_cons_of_pos _ (by simpa using hav),
            List.find?_cons_of_pos _ (by simpa using hav)]
      · rw [List.find?_cons_of_neg _ (by simpa using hav),
            List.find?_cons_of_neg _ (by simpa using hav)]
        exact ih

theorem lookupKey_upsertLayer_self (lid : String) (g : Geometry) (L : Layers) :
    lookupKey lid (upsertLayer lid g L) = some g := by
  unfold upsertLayer lookupKey
  rw [List.find?_append, find?_filter_self]
  simp

theorem lookupKey_upsertLayer_other (v lid : String) (g : Geometry) (L : Layers)
    (hvl : v ≠ lid) : lookupKey v (upsertLayer lid g L) = lookupKey v L := by
  unfold upsertLayer lookupKey
  rw [List.find?_append, find?_filter_ne v lid L hvl]
  have : List.find? (fun q => q.1 == v) [(lid, g)] = none := by
    rw [List.find?_eq_none]
    intro x hx
    rw [List.mem_singleton] at hx
    subst hx
    simp only [beq_iff_eq]
    exact fun hv => hvl hv.symm
  rw [this]
  cases List.find? (fun q => q.1 == v) L <;> simp

theorem countKey_upsertLayer_self (lid : String) (g : Geometry) (L : Layers) :
    countKey lid (upsertLayer lid g L) = 1 := by
  unfold upsertLayer countKey keysOf
  rw [List.map_append, List.count_append]
  have hzero : (List.map Prod.fst (L.filter (fun q => q.1 != lid))).count lid = 0 := by
    rw [List.count_eq_zero]
    intro hmem
    rw [List.mem_map] at hmem
    obtain ⟨q, hq, hql⟩ := hmem
    have := List.of_mem_filter hq
    rw [hql] at this
    simp at this
  rw [hzero]
  simp

theorem countKey_upsertLayer_other (v lid : String) (g : Geometry) (L : Layers)
    (hvl : v ≠ lid) : countKey v (upsertLayer lid g L) ≤ countKey v L := by
  unfold upsertLayer countKey keysOf
  rw [List.map_append, List.count_append]
  have hone : (List.map Prod.fst [(lid, g)]).count v = 0 := by
    rw [List.count_eq_zero]
    intro hmem
    rw [List.mem_map] at hmem
    obtain ⟨q, hq, hql⟩ := hmem
    rw [List.mem_singleton] at hq
    subst hq
    exact hvl hql.symm
  rw [hone, Nat.add_zero]
  exact List.Sublist.count_le ((List.filter_sublist L).map Prod.fst) v

/-! ### Geometry resolutions completing in arbitrary order -/

/-- One resolved geometry request for a layer. The `epoch` field is the
refresh-cycle counter the specification attaches to each issued request; it is
carried here only so that statements about epochs can be made — the code of the
continuation (lines 77-113) never reads any epoch. -/
structure Resolution where
  layerId : String
  epoch : Nat
  geometry : Geometry
  deriving Repr, DecidableEq

/-- A sequence of geometry resolutions applied in completion order, each one
running the in-mount continuation (cancellation flag still false). -/
def applyResolutions (rs : List Resolution) (L : Layers) : Layers :=
  rs.foldl (fun N res => geomContinuation false res.layerId res.geometry N) L

/-- The last resolution in completion order carrying the given layer id. -/
def lastResolution (lid : String) : List Resolution → Option Resolution
  | [] => none
  | r :: rs =>
    match lastResolution lid rs with
    | some q => some q
    | none => if r.layerId == lid then some r else none

/-- Modelled from the claim wording, for comparison with the code: the
resolution for the given layer id carrying the maximum epoch ever issued. -/
def maxEpochResolution (lid : String) (rs : List Resolution) : Option Resolution :=
  rs.foldl
    (fun acc r =>
      if r.layerId == lid then
        match acc with
        | none => some r
        | some q => if q.epoch < r.epoch then some r else some q
      else acc)
    none

theorem applyResolutions_nil (L : Layers) : applyResolutions [] L = L := rfl

theorem applyResolutions_cons (r : Resolution) (rs : List Resolution) (L : Layers) :
    applyResolutions (r :: rs) L
      = applyResolutions rs (upsertLayer r.layerId r.geometry L) := rfl

theorem lookupKey_applyResolutions (lid : String) (rs : List Resolution) (L : Layers) :
    lookupKey lid (applyResolutions rs L)
      = match lastResolution lid rs with
        | some r => some r.geometry
        | none => lookupKey lid L := by
  induction rs generalizing L with
  | nil => rfl
  | cons r rs ih =>
    rw [applyResolutions_cons, ih]
    cases hl : lastResolution lid rs with
    | some q => simp [lastResolution, hl]
    | none =>
      simp only [lastResolution, hl]
      by_cases hr : r.layerId = lid
      · rw [if_pos (by simpa using hr), ← hr, lookupKey_upsertLayer_self]
      · rw [if_neg (by simpa using hr),
            lookupKey_upsertLayer_other lid r.layerId _ L (fun hv => hr hv.symm)]

/-! ### Which geometry requests a refresh issues -/

theorem enumFrom_filter_of_lt (xs : List RouteSummary) (m k : Nat) (h : k < m) :
    (List.enumFrom m xs).filter (fun q => q.1 == k) = [] := by
  induction xs generalizing m with
  | nil => rfl
  | cons x xs ih =>
    rw [List.enumFrom_cons,
        List.filter_cons_of_neg (by simp only [beq_iff_eq]; omega)]
    exact ih (m + 1) (by omega)

theorem enumFrom_filter_get (xs : List RouteSummary) (n idx : Nat) (r : RouteSummary)
    (h : xs[idx]? = some r) :
    (List.enumFrom n xs).filter (fun q => q.1 == n + idx) = [(n + idx, r)] := by
  induction xs generalizing n idx with
  | nil => simp at h
  | cons x xs ih =>
    cases idx with
    | zero =>
      rw [List.getElem?_cons_zero] at h
      injection h with h
      subst h
      rw [List.enumFrom_cons, Nat.add_zero,
          List.filter_cons_of_pos (by simp),
          enumFrom_filter_of_lt xs (n + 1) n (by omega)]
    | succ j =>
      rw [List.getElem?_cons_succ] at h
      rw [List.enumFrom_cons,
          List.filter_cons_of_neg (by simp only [beq_iff_eq]; omega)]
      have heq : n + (j + 1) = (n + 1) + j := by omega
      rw [heq]
      exact ih (n + 1) j h

/-- The per-route request decision of `loadRoutes` (lines 70-76). -/
def requestFor (ir : Nat × RouteSummary) : Option (Nat × List (Int × Int)) :=
  if (routeCoords ir.2).length < 2 then none else some (ir.1, routeCoords ir.2)

theorem geometryRequests_eq_filterMap (routes : List RouteSummary) :
    geometryRequests routes = routes.enum.filterMap requestFor := rfl

theorem filterMap_requestFor_filter (l : List (Nat × RouteSummary)) (idx : Nat) :
    (l.filterMap requestFor).filter (fun q => q.1 == idx)
      = (l.filter (fun q => q.1 == idx)).filterMap requestFor := by
  induction l with
  | nil => rfl
  | cons a l ih =>
    by_cases hc : (routeCoords a.2).length < 2
    · rw [List.filterMap_cons_none (by simp [requestFor, hc])]
      by_cases ha : a.1 = idx
      · rw [List.filter_cons_of_pos (by simpa using ha),
            List.filterMap_cons_none (by simp [requestFor, hc])]
        exact ih
      · rw [List.filter_cons_of_neg (by simpa using ha)]
        exact ih
    · have hfa : requestFor a = some (a.1, routeCoords a.2) := by
        simp [requestFor, hc]
      rw [List.filterMap_cons_some hfa]
      by_cases ha : a.1 = idx
      · rw [List.filter_cons_of_pos (by simpa using ha),
            List.filter_cons_of_pos (by simpa using ha),
            List.filterMap_cons_some hfa]
        rw [ih]
      · rw [List.filter_cons_of_neg (by simpa using ha),
            List.filter_cons_of_neg (by simpa using ha)]
        exact ih

theorem geometryRequests_filter (routes : List RouteSummary) (idx : Nat)
    (r : RouteSummary) (h : routes[idx]? = some r) :
    (geometryRequests routes).filter (fun q => q.1 == idx)
      = if (routeCoords r).length < 2 then [] else [(idx, routeCoords r)] := by
  rw [geometryRequests_eq_filterMap, filterMap_requestFor_filter]
  have henum : routes.enum.filter (fun q => q.1 == idx) = [(idx, r)] := by
    have := enumFrom_filter_get routes 0 idx r h
    rw [Nat.zero_add] at this
    exact this
  rw [henum]
  by_cases hc : (routeCoords r).length < 2
  · rw [if_pos hc, List.filterMap_cons_none (by simp [requestFor, hc])]
    rfl
  · have hfr : requestFor (idx, r) = some (idx, routeCoords r) := by
      simp [requestFor, hc]
    rw [if_neg hc, List.filterMap_cons_some hfr]
    rfl

/-! ### Poll scheduling (MapWidget.tsx lines 129-178) and the API client -/

/-- The interval tick handler registered at lines 164-166. Its body is exactly
one statement, `void poll();`: it consults no busy or in-flight state before
starting a poll, so firing a tick always raises the number of polls in flight
by one, whatever that number currently is. -/
def intervalTick (inFlight : Nat) : Nat := inFlight + 1

/-- What the poll effect schedules when it runs past its guard: the interval
period in milliseconds handed to `setInterval` (line 166) and whether an
immediate `void poll()` is issued (line 169). -/
structure PollSetup where
  intervalMs : Nat
  immediate : Bool
  deriving Repr, DecidableEq

/-- The poll effect body (lines 129-178). `mapRefSet` is whether
`mapRef.current` is non-null at the moment the effect runs; the first statement
is the guard `if (!mapRef.current) return;` and only past it are the 2000 ms
interval and the initial poll set up. The dependency array of this effect is
`[]`, so it runs exactly once per mount. -/
def pollEffect (mapRefSet : Bool) : Option PollSetup :=
  if mapRefSet then some ⟨2000, true⟩ else none

/-- Whether `mapRef.current` is non-null when the mount-time effects run.
`mapRef.current` is assigned only inside the `map.on` load callback (line 39),
which fires asynchronously after the style loads over the network, strictly
after the synchronous post-render effect pass; so the poll effect observes a
null `mapRef.current` on its single run. -/
def mapRefAtMount : Bool := false

/-- A live-positions request as issued by `LogisticsAPI.getLivePositions`
(`src/frontend/src/services/api.ts` lines 217-224): the `advance` query
parameter it carries. -/
structure LiveRequest where
  advance : Bool
  deriving Repr, DecidableEq

/-- `getLivePositions(advance)` forwards its argument as the query parameter. -/
def getLivePositionsRequest (advance : Bool) : LiveRequest := ⟨advance⟩

/-- The declared default of the `advance` parameter of `getLivePositions`
(api.ts line 218: `advance: boolean = true`). -/
def getLivePositionsDefault : Bool := true

/-- The call the poll body makes (MapWidget.tsx line 135):
`LogisticsAPI.getLivePositions(true)`. -/
def pollLiveRequest : LiveRequest := getLivePositionsRequest true

theorem lastPos_eq_none (v : String) (ps : List LivePosition)
    (h : ∀ p ∈ ps, p.vehicle_id ≠ v) : lastPos v ps = none := by
  induction ps with
  | nil => rfl
  | cons p ps ih =>
    show (match lastPos v ps with
      | some q => some q
      | none => if p.vehicle_id == v then some p else none) = none
    rw [ih (fun q hq => h q (List.mem_cons_of_mem p hq))]
    simp only
    rw [if_neg (by simpa using h p (List.mem_cons_self p ps))]

/-! ### The claims -/

/-- C1 counterexample: two geometry resolutions for the same layer id, the one
with epoch 2 completing before the one with epoch 1. The code stores the
geometry of the later completion (epoch 1), while the resolution with the
maximum epoch ever issued carries the other geometry — so the stored geometry
is not the max-epoch geometry, and no epoch-is-greater-or-equal gate exists. -/
theorem c1_epoch_guard_counterexample :
    lookupKey "route-line-R1"
        (applyResolutions
          [⟨"route-line-R1", 2, [(2, 2), (3, 3)]⟩,
           ⟨"route-line-R1", 1, [(0, 0), (1, 1)]⟩] [])
      = some [(0, 0), (1, 1)]
    ∧ (maxEpochResolution "route-line-R1"
        [⟨"route-line-R1", 2, [(2, 2), (3, 3)]⟩,
         ⟨"route-line-R1", 1, [(0, 0), (1, 1)]⟩]).map Resolution.geometry
      = some [(2, 2), (3, 3)]
    ∧ ([(0, 0), (1, 1)] : Geometry) ≠ [(2, 2), (3, 3)] := by
  refine ⟨by decide, by decide, by decide⟩

/-- C1 (amended): after any sequence of geometry resolutions arriving in
arbitrary completion order, the stored geometry for a layer id equals the
geometry of the last resolution to complete for it (last-write-wins in
completion order); epochs are never consulted by the continuation, and when no
resolution carries the id the previously stored layer is unchanged. -/
theorem c1_last_completion_wins (lid : String) (rs : List Resolution) (L : Layers) :
    lookupKey lid (applyResolutions rs L)
      = match lastResolution lid rs with
        | some r => some r.geometry
        | none => lookupKey lid L :=
  lookupKey_applyResolutions lid rs L

/-- C2: a geometry continuation resuming after unmount observes the
cancellation flag set and leaves the layers exactly as they were, and a poll
continuation resuming after unmount observes the mounted flag cleared and
leaves the markers exactly as they were — zero scene mutations from stale
continuations, for every in-flight outcome. -/
theorem c2_teardown_safety :
    (∀ (lid : String) (g : Geometry) (L : Layers), geomContinuation true lid g L = L)
    ∧ (∀ (fetch : Except String (List LivePosition)) (M : Markers),
        poll false fetch M = M) := by
  constructor
  · intro lid g L
    rfl
  · intro fetch M
    cases fetch <;> rfl

/-- C3: the claim asserts a tick firing while the previous poll is still in
flight is skipped, keeping at most one poll in flight. The tick handler is the
bare statement `void poll();` with no busy flag: evaluated with one poll
already in flight, a tick leaves two polls in flight, contradicting the
at-most-one bound. -/
theorem c3_tick_not_skipped : intervalTick 1 = 2 ∧ ¬ intervalTick 1 ≤ 1 := by
  refine ⟨rfl, by decide⟩

/-- C4: a vehicle id absent from the poll batch keeps its stored marker
unchanged, a vehicle id appearing for the first time ends up with exactly one
marker, a marker existing before a poll still exists after it (polls never
remove markers), and removal happens at teardown, which empties the table. -/
theorem c4_marker_persistence (v : String) (ps : List LivePosition) (M : Markers) :
    ((∀ p ∈ ps, p.vehicle_id ≠ v) →
        lookupKey v (applyPositions ps M) = lookupKey v M)
    ∧ ((v ∉ keysOf M ∧ ∃ p ∈ ps, p.vehicle_id = v) →
        countKey v (applyPositions ps M) = 1)
    ∧ (v ∈ keysOf M → v ∈ keysOf (applyPositions ps M))
    ∧ teardownMarkers (applyPositions ps M) = [] := by
  refine ⟨?_, ?_, ?_, rfl⟩
  · intro h
    rw [lookupKey_applyPositions, lastPos_eq_none v ps h]
  · intro h
    exact countKey_applyPositions_first v ps M h.1 h.2
  · intro h
    exact mem_keys_applyPositions v ps M h

/-- C4 witness: concrete instances discharging each hypothesis of
`c4_marker_persistence`. -/
theorem c4_marker_persistence_witness :
    lookupKey "absent" (applyPositions [⟨"v1", 1, 2, none⟩] [("absent", ⟨9, 9⟩)])
        = lookupKey "absent" [("absent", ⟨9, 9⟩)]
    ∧ countKey "v1" (applyPositions [⟨"v1", 1, 2, none⟩] []) = 1
    ∧ "absent" ∈ keysOf (applyPositions [⟨"v1", 1, 2, none⟩] [("absent", ⟨9, 9⟩)]) := by
  refine ⟨?_, ?_, ?_⟩
  · exact (c4_marker_persistence "absent" [⟨"v1", 1, 2, none⟩]
      [("absent", ⟨9, 9⟩)]).1 (by decide)
  · exact (c4_marker_persistence "v1" [⟨"v1", 1, 2, none⟩] []).2.1
      ⟨by decide, ⟨⟨"v1", 1, 2, none⟩, by decide, rfl⟩⟩
  · exact (c4_marker_persistence "absent" [⟨"v1", 1, 2, none⟩]
      [("absent", ⟨9, 9⟩)]).2.2.1 (by decide)

/-- C5: a rejected route-list fetch leaves the layers exactly as they were, a
rejected geometry fetch leaves the layers exactly as they were, and a rejected
position fetch leaves the markers exactly as they were; each loader returns its
prior state totally (the catch swallows the rejection), so no exception crosses
the loader or poll boundary. -/
theorem c5_failure_isolation :
    (∀ (e : String) (geomOf : Nat → Except String Geometry) (cancelled : Bool)
        (L : Layers), loadRoutes (.error e) geomOf cancelled L = L)
    ∧ (∀ (cancelled : Bool) (geomOf : Nat → Except String Geometry) (L : Layers)
        (ir : Nat × RouteSummary) (e : String),
        geomOf ir.1 = .error e → loadRoutesStep cancelled geomOf L ir = L)
    ∧ (∀ (mounted : Bool) (e : String) (M : Markers),
        poll mounted (.error e) M = M) := by
  refine ⟨fun e geomOf cancelled L => rfl, ?_, fun mounted e M => rfl⟩
  intro cancelled geomOf L ir e h
  unfold loadRoutesStep
  by_cases hc : (routeCoords ir.2).length < 2
  · rw [if_pos hc]
  · rw [if_neg hc, h]

/-- C5 witness: concrete failing fetches for each of the three boundaries. -/
theorem c5_failure_isolation_witness :
    loadRoutes (.error "down") (fun _ => .ok []) false [("route-line-1", [(0, 0)])]
        = [("route-line-1", [(0, 0)])]
    ∧ loadRoutesStep false (fun _ => .error "down") [("route-line-1", [(0, 0)])]
        (0, ⟨none, [⟨0, 0⟩, ⟨1, 1⟩]⟩) = [("route-line-1", [(0, 0)])]
    ∧ poll true (.error "down") [("v1", ⟨1, 2⟩)] = [("v1", ⟨1, 2⟩)] := by
  refine ⟨?_, ?_, ?_⟩
  · exact c5_failure_isolation.1 "down" (fun _ => .ok []) false _
  · exact c5_failure_isolation.2.1 false (fun _ => .error "down") _ _ "down" rfl
  · exact c5_failure_isolation.2.2 true "down" _

/-- C6: a fetched route with fewer than 2 stops triggers no geometry request
(no request in the refresh carries its index) and its processing step creates
no layer (the layer state is returned untouched); a route with 2 or more stops
has exactly one geometry request issued for it per refresh. -/
theorem c6_single_stop_skip (routes : List RouteSummary) (idx : Nat)
    (r : RouteSummary) (h : routes[idx]? = some r) :
    (r.stops.length < 2 →
        (geometryRequests routes).filter (fun q => q.1 == idx) = []
        ∧ ∀ (cancelled : Bool) (geomOf : Nat → Except String Geometry) (L : Layers),
            loadRoutesStep cancelled geomOf L (idx, r) = L)
    ∧ (2 ≤ r.stops.length →
        ((geometryRequests routes).filter (fun q => q.1 == idx)).length = 1) := by
  have hlen : (routeCoords r).length = r.stops.length := by
    simp [routeCoords]
  constructor
  · intro hc
    have hc2 : (routeCoords r).length < 2 := by omega
    constructor
    · rw [geometryRequests_filter routes idx r h, if_pos hc2]
    · intro cancelled geomOf L
      unfold loadRoutesStep
      rw [if_pos hc2]
  · intro hc
    have hc2 : ¬ (routeCoords r).length < 2 := by omega
    rw [geometryRequests_filter routes idx r h, if_neg hc2]
    rfl

/-- C6 witness: a refresh whose route list holds a single-stop route at index 0
and a two-stop route at index 1. -/
theorem c6_single_stop_skip_witness :
    ((geometryRequests
          [⟨some "A", [⟨0, 0⟩]⟩, ⟨some "B", [⟨0, 0⟩, ⟨1, 1⟩]⟩]).filter
        (fun q => q.1 == 0) = []
      ∧ loadRoutesStep false (fun _ => .ok [(5, 5), (6, 6)]) []
          (0, ⟨some "A", [⟨0, 0⟩]⟩) = [])
    ∧ ((geometryRequests
          [⟨some "A", [⟨0, 0⟩]⟩, ⟨some "B", [⟨0, 0⟩, ⟨1, 1⟩]⟩]).filter
        (fun q => q.1 == 1)).length = 1 := by
  refine ⟨?_, ?_⟩
  · have h := (c6_single_stop_skip
      [⟨some "A", [⟨0, 0⟩]⟩, ⟨some "B", [⟨0, 0⟩, ⟨1, 1⟩]⟩] 0
      ⟨some "A", [⟨0, 0⟩]⟩ rfl).1 (by decide)
    exact ⟨h.1, h.2 false (fun _ => .ok [(5, 5), (6, 6)]) []⟩
  · exact (c6_single_stop_skip
      [⟨some "A", [⟨0, 0⟩]⟩, ⟨some "B", [⟨0, 0⟩, ⟨1, 1⟩]⟩] 1
      ⟨some "B", [⟨0, 0⟩, ⟨1, 1⟩]⟩ rfl).2 (by decide)

/-- C7 counterexample: the runtime `RouteSummary` carries no `id` field, so
`r.id` is falsy and the template literal falls back to the positional index:
the same route yields different layer ids at positions 0 and 1, so the layer
id is not a function of the route id alone. -/
theorem c7_layer_id_counterexample :
    layerIdOf (RouteSummary.mk none []).id 0 ≠ layerIdOf (RouteSummary.mk none []).id 1 := by
  decide

/-- C7 (amended): the layer id is a deterministic function of the route id and
the position in the fetched list — when the route has a truthy (present,
non-empty) id it depends on the route id alone — and the store holds at most
one layer per layer id: upserting under an already-present layer id replaces
the existing layer (one entry under the id afterwards, holding the new
geometry) rather than adding a duplicate. -/
theorem c7_layer_identity (r : RouteSummary) (i j : Nat) :
    ((∃ s, r.id = some s ∧ s ≠ "") → layerIdOf r.id i = layerIdOf r.id j)
    ∧ (∀ (lid : String) (g : Geometry) (L : Layers),
        countKey lid (upsertLayer lid g L) = 1
        ∧ lookupKey lid (upsertLayer lid g L) = some g) := by
  constructor
  · rintro ⟨s, hs, hne⟩
    rw [hs]
    show (if (s != "") = true then "route-line-" ++ s else "route-line-" ++ toString i)
      = (if (s != "") = true then "route-line-" ++ s else "route-line-" ++ toString j)
    rw [if_pos (by simpa using hne), if_pos (by simpa using hne)]
  · intro lid g L
    exact ⟨countKey_upsertLayer_self lid g L, lookupKey_upsertLayer_self lid g L⟩

/-- C7 witness: a route with a present non-empty id, and a replacement upsert
over an already-present layer id. -/
theorem c7_layer_identity_witness :
    layerIdOf (RouteSummary.mk (some "R1") []).id 0
        = layerIdOf (RouteSummary.mk (some "R1") []).id 7
    ∧ countKey "route-line-R1"
        (upsertLayer "route-line-R1" [(2, 2)] [("route-line-R1", [(1, 1)])]) = 1 := by
  refine ⟨?_, ?_⟩
  · exact (c7_layer_identity ⟨some "R1", []⟩ 0 7).1 ⟨"R1", rfl, by decide⟩
  · exact ((c7_layer_identity ⟨some "R1", []⟩ 0 0).2 "route-line-R1"
      [(2, 2)] [("route-line-R1", [(1, 1)])]).1

/-- C8: the claim says mounting starts the poller with one immediate poll and
then a 2000 ms interval. The poll effect runs exactly once per mount (empty
dependency array) and its guard observes a null `mapRef.current` (set only in
the asynchronous load callback), so at mount it schedules nothing: no interval
and no immediate poll. Past the guard it would indeed set up a 2000 ms
interval plus an immediate poll — the guard is what prevents the claimed
behavior. -/
theorem c8_poller_never_starts :
    pollEffect mapRefAtMount = none ∧ pollEffect true = some ⟨2000, true⟩ :=
  ⟨rfl, rfl⟩

/-- C9: running the poll mutation loop twice with an identical position batch
is idempotent — the second run changes neither the marker count nor the
coordinates stored under any vehicle id. -/
theorem c9_poll_idempotent (ps : List LivePosition) (M : Markers) :
    (poll true (.ok ps) (poll true (.ok ps) M)).length = (poll true (.ok ps) M).length
    ∧ ∀ v, lookupKey v (poll true (.ok ps) (poll true (.ok ps) M))
        = lookupKey v (poll true (.ok ps) M) := by
  have hpoll : ∀ (qs : List LivePosition) (N : Markers),
      poll true (.ok qs) N = applyPositions qs N := fun _ _ => rfl
  rw [hpoll, hpoll]
  constructor
  · exact length_applyPositions_of_mem ps _
      (fun p hp => pos_mem_keys_applyPositions p ps M hp)
  · intro v
    rw [lookupKey_applyPositions]
    cases hl : lastPos v ps with
    | none => simp
    | some p =>
      simp only
      rw [lookupKey_applyPositions, hl]

/-- C10: the live-position fetch issued by the poll body carries
advance set to true, and true is also the declared default of the
getLivePositions parameter, so every poll asks the backend to advance the
simulated vehicle positions. -/
theorem c10_poll_advances :
    pollLiveRequest.advance = true
    ∧ pollLiveRequest = getLivePositionsRequest getLivePositionsDefault :=
  ⟨rfl, rfl⟩
